import Mathlib

/- Verification model of the Mora_Plus_DeerFlow indexing and retrieval core.

   Sources modelled:
   - scripts/chunk_and_embed.py : chunk_text, create_embeddings_batch, save_index
   - scripts/vector_temas_manager.py : filter_by_vector_temas, filter_by_eje,
     filter_by_mode, get_filtered_chunks

   Python strings are modelled as List Char; the embedding model
   (SentenceTransformer) and sklearn's cosine_similarity are external
   collaborators and appear as function parameters. -/

namespace ChunkAndEmbed

/-- Whitespace characters recognised by Python's str.strip and the regex
    class \s (ASCII range; the inputs at hand are ASCII-whitespace only). -/
def isPySpace (c : Char) : Bool :=
  c = ' ' || c = '\t' || c = '\n' || c = '\r' || c = '\x0b' || c = '\x0c'

/-- Python s.strip(): drop whitespace from both ends. -/
def pystrip (l : List Char) : List Char :=
  ((l.dropWhile isPySpace).reverse.dropWhile isPySpace).reverse

/-- Scanner for re.sub applied with pattern \s+ and replacement " ":
    every maximal whitespace run becomes a single space.  The flag records
    whether the scanner is inside a run that has already been replaced. -/
def collapseGo (inRun : Bool) : List Char → List Char
  | [] => []
  | c :: cs =>
    if isPySpace c then
      if inRun then collapseGo true cs else ' ' :: collapseGo true cs
    else c :: collapseGo false cs

/-- Python re.sub with pattern \s+ and replacement " " (line 79 of
    scripts/chunk_and_embed.py). -/
def collapseWS (l : List Char) : List Char := collapseGo false l

/-- Scanner for re.split on the paragraph pattern (newline, \s*, newline).
    A match starts at a newline whose maximal whitespace run contains a
    further newline and, because \s* is greedy, extends to the last newline
    of that run.  The flag is true while the scanner is inside a match. -/
def splitParasGo : Bool → List Char → List Char → List (List Char)
  | false, acc, [] => [acc.reverse]
  | true, _, [] => [[]]
  | false, acc, c :: cs =>
    if c = '\n' && (cs.takeWhile isPySpace).contains '\n' then
      acc.reverse :: splitParasGo true [] cs
    else splitParasGo false (c :: acc) cs
  | true, acc, c :: cs =>
    if c = '\n' && !(cs.takeWhile isPySpace).contains '\n' then
      splitParasGo false [] cs
    else splitParasGo true acc cs

/-- Python re.split on blank-line boundaries (line 68 of
    scripts/chunk_and_embed.py). -/
def splitParas (l : List Char) : List (List Char) := splitParasGo false [] l

/-- Sentence-terminating punctuation of the pattern [.!?]+ . -/
def isPunct (c : Char) : Bool := c = '.' || c = '!' || c = '?'

/-- Scanner for re.split on maximal punctuation runs; empty fragments arise
    when the text starts or ends with punctuation, exactly as re.split
    produces them. -/
def splitSentsGo : Bool → List Char → List Char → List (List Char)
  | false, acc, [] => [acc.reverse]
  | true, _, [] => [[]]
  | false, acc, c :: cs =>
    if isPunct c then acc.reverse :: splitSentsGo true [] cs
    else splitSentsGo false (c :: acc) cs
  | true, acc, c :: cs =>
    if isPunct c then splitSentsGo true acc cs
    else splitSentsGo false [c] cs

/-- Python re.split on the pattern [.!?]+ (line 83 of
    scripts/chunk_and_embed.py). -/
def splitSents (l : List Char) : List (List Char) := splitSentsGo false [] l

/-- One iteration of the sentence-accumulation loop of chunk_text
    (lines 86-97 of scripts/chunk_and_embed.py).  State: chunks emitted so
    far, current accumulator. -/
def sentStep (min_length max_length : Nat) (st : List (List Char) × List Char)
    (sentence0 : List Char) : List (List Char) × List Char :=
  let sentence := pystrip sentence0
  if sentence = [] then st
  else if max_length < st.2.length + sentence.length ∧ st.2 ≠ [] then
    (if min_length ≤ st.2.length then st.1 ++ [pystrip st.2] else st.1, sentence)
  else (st.1, if st.2 = [] then sentence else st.2 ++ ' ' :: sentence)

/-- Body of the paragraph loop of chunk_text (lines 71-103 of
    scripts/chunk_and_embed.py), appending this paragraph's chunks to out. -/
def processParagraph (min_length max_length : Nat) (out : List (List Char))
    (paragraph0 : List Char) : List (List Char) :=
  let paragraph1 := pystrip paragraph0
  if paragraph1.length < min_length then out
  else
    let paragraph := collapseWS paragraph1
    if max_length < paragraph.length then
      let fin := (splitSents paragraph).foldl (sentStep min_length max_length) ([], [])
      out ++ (if fin.2 ≠ [] ∧ min_length ≤ fin.2.length then fin.1 ++ [pystrip fin.2] else fin.1)
    else out ++ [paragraph]

/-- chunk_text(text, min_length, max_length) (lines 60-105 of
    scripts/chunk_and_embed.py). -/
def chunk_text (text : List Char) (min_length max_length : Nat) : List (List Char) :=
  if text = [] ∨ (pystrip text).length < min_length then []
  else (splitParas (pystrip text)).foldl (processParagraph min_length max_length) []

/-- Chunk record built by process_file (lines 195-204 of
    scripts/chunk_and_embed.py). -/
structure ChunkRecord where
  text : List Char
  source : String
  chunk_id : String
  length : Nat
  file_type : String
  chunk_index : Nat
deriving DecidableEq

/-- Worker for the slicing loop of create_embeddings_batch: texts are taken
    batch_size at a time.  acc holds the current batch reversed, k the number
    of slots left in it.  Equivalent to slicing texts at i, i+batch_size, ... -/
def batchesGo (batch_size : Nat) : List (List Char) → Nat → List (List Char) →
    List (List (List Char))
  | acc, _, [] => [acc.reverse]
  | acc, 0, x :: xs => acc.reverse :: batchesGo batch_size [x] (batch_size - 1) xs
  | acc, k + 1, x :: xs => batchesGo batch_size (x :: acc) k xs

/-- The consecutive slices texts with indices in ranges of the form
    i to i+batch_size, for i = 0, batch_size, 2*batch_size, ... (the loop at
    line 310 of scripts/chunk_and_embed.py). -/
def batches (batch_size : Nat) (texts : List (List Char)) : List (List (List Char)) :=
  match texts with
  | [] => []
  | x :: xs => batchesGo batch_size [x] (batch_size - 1) xs

/-- create_embeddings_batch (lines 298-327 of scripts/chunk_and_embed.py).
    The SentenceTransformer is external: encode is its batch interface.
    Vectors are modelled as lists of rationals; the .tolist() conversion is
    the identity in this model. -/
def create_embeddings_batch (encode : List (List Char) → List (List ℚ))
    (chunks : List ChunkRecord) (batch_size : Nat) :
    List (List Char) × List (List ℚ) :=
  if chunks = [] then ([], [])
  else
    let texts := chunks.map ChunkRecord.text
    (texts, ((batches batch_size texts).map encode).flatten)

/-- Banker's rounding of a rational to the nearest integer (model of Python's
    round on the exact value). -/
def halfEven (q : ℚ) : ℤ :=
  let n := ⌊q⌋
  if q - n < 1 / 2 then n
  else if (1 / 2 : ℚ) < q - n then n + 1
  else if n % 2 = 0 then n else n + 1

/-- Python round(q, 2), modelled on the exact rational value. -/
def pyRound2 (q : ℚ) : ℚ := (halfEven (q * 100) : ℚ) / 100

/-- Source-count accumulation of save_index (lines 338-343 of
    scripts/chunk_and_embed.py); a Python dict preserves insertion order. -/
def bumpSource (acc : List (String × Nat)) (s : String) : List (String × Nat) :=
  if acc.any (fun kv => kv.1 = s) then
    acc.map (fun kv => if kv.1 = s then (kv.1, kv.2 + 1) else kv)
  else acc ++ [(s, 1)]

structure ProcessingStats where
  avg_chunk_length : ℚ
  min_chunk_length : Nat
  max_chunk_length : Nat
  total_sources : Nat
  sources : List (String × Nat)
deriving DecidableEq

/-- Aggregate metadata of the snapshot.  The created_at field of the source
    comes from the system clock (an external effect) and is omitted. -/
structure IndexMetadata where
  model : String
  total_chunks : Nat
  embedding_dim : Nat
  processing_stats : ProcessingStats
  version : String
deriving DecidableEq

structure IndexSnapshot where
  texts : List (List Char)
  embeddings : List (List ℚ)
  metadata : IndexMetadata
  chunks_metadata : List ChunkRecord
deriving DecidableEq

/-- The index_data document assembled by save_index (lines 329-363 of
    scripts/chunk_and_embed.py), i.e. the pure content of the persisted
    snapshot. -/
def save_index (texts : List (List Char)) (embeddings : List (List ℚ))
    (chunks_metadata : List ChunkRecord) : IndexSnapshot :=
  let chunk_lengths := texts.map List.length
  let avg : ℚ :=
    match chunk_lengths with
    | [] => 0
    | _ => ((chunk_lengths.sum : ℚ) / (chunk_lengths.length : ℚ))
  let sources := chunks_metadata.foldl (fun acc c => bumpSource acc c.source) []
  { texts := texts
    embeddings := embeddings
    metadata :=
      { model := "all-MiniLM-L6-v2"
        total_chunks := texts.length
        embedding_dim := (embeddings.head?.map List.length).getD 0
        processing_stats :=
          { avg_chunk_length := pyRound2 avg
            min_chunk_length := match chunk_lengths with | [] => 0 | x :: xs => xs.foldl Nat.min x
            max_chunk_length := match chunk_lengths with | [] => 0 | x :: xs => xs.foldl Nat.max x
            total_sources := sources.length
            sources := sources }
        version := "7.0.0-local" }
    chunks_metadata := chunks_metadata }

/-- File-system events performed by the write of save_index (lines 365-366 of
    scripts/chunk_and_embed.py): open(output_path, "w") truncates the file in
    place, json.dump writes the document, the with-block closes the handle. -/
inductive WriteEvent where
  | openTruncate : WriteEvent
  | writeJson : IndexSnapshot → WriteEvent
  | close : WriteEvent
deriving DecidableEq

/-- Observable content of the output path. -/
inductive FileObs where
  | readable : IndexSnapshot → FileObs
  | corruptOrEmpty : FileObs
deriving DecidableEq

/-- The event trace of the write of save_index: no staging file, the output
    path itself is opened in truncating write mode and written directly. -/
def save_index_events (snap : IndexSnapshot) : List WriteEvent :=
  [WriteEvent.openTruncate, WriteEvent.writeJson snap, WriteEvent.close]

def applyEvent : FileObs → WriteEvent → FileObs
  | _, WriteEvent.openTruncate => FileObs.corruptOrEmpty
  | _, WriteEvent.writeJson snap => FileObs.readable snap
  | f, WriteEvent.close => f

/-- Content of the output path if the process crashes after the first k
    events of the write. -/
def crashState (prior : FileObs) (events : List WriteEvent) (k : Nat) : FileObs :=
  (events.take k).foldl applyEvent prior

/-- Absence of leading and trailing whitespace, phrased through dropWhile. -/
def Stripped (l : List Char) : Prop :=
  l.dropWhile isPySpace = l ∧ l.reverse.dropWhile isPySpace = l.reverse

/-- Claim C1 as stated: every chunk length lies in the closed interval, the
    only oversized chunks being whole punctuation-free paragraphs. -/
abbrev C1Claim (text : List Char) (min_length max_length : Nat) : Prop :=
  ∀ c ∈ chunk_text text min_length max_length,
    (min_length ≤ c.length ∧ c.length ≤ max_length) ∨
    (max_length < c.length ∧
      ∃ p ∈ splitParas (pystrip text),
        c = collapseWS (pystrip p) ∧ ∀ ch ∈ c, isPunct ch = false)

/-- Corrected length bounds for a chunk produced by chunk_text: a chunk is
    at least min_length long unless it is a whole paragraph whose length
    passed the min_length check before whitespace collapsing; and it is at
    most max_length + 1 long (the overflow check does not count the joining
    space) unless it is a single stripped sentence fragment of an overlong
    paragraph. -/
abbrev C1Prop (text : List Char) (min_length max_length : Nat) (c : List Char) : Prop :=
  (min_length ≤ c.length ∨
    ∃ p ∈ splitParas (pystrip text),
      min_length ≤ (pystrip p).length ∧ c = collapseWS (pystrip p)) ∧
  (c.length ≤ max_length + 1 ∨
    ∃ p ∈ splitParas (pystrip text),
      max_length < (collapseWS (pystrip p)).length ∧
        c ∈ (splitSents (collapseWS (pystrip p))).map pystrip)

/-- Input exhibiting all three deviations from the claimed bounds of C1:
    a paragraph whose collapse drops it below min_length, an oversized
    sentence fragment inside a punctuated paragraph, and an accumulated
    chunk of length max_length + 1. -/
def cx1Text : List Char :=
  ("a    bb\n\nabc. defghijklmnopqrstu.\n\nabcde. fghij.").toList

/-- The accumulator chunk of cx1Text, of length max_length + 1 = 11. -/
def cx1Chunk : List Char := ("abcde fghij").toList

/-- Alignment stated by C2 for the persisted snapshot built from
    create_embeddings_batch output and the chunk records. -/
abbrev C2Prop (encode : List (List Char) → List (List ℚ))
    (chunks : List ChunkRecord) (batch_size : Nat) : Prop :=
  let te := create_embeddings_batch encode chunks batch_size
  (save_index te.1 te.2 chunks).texts.length =
      (save_index te.1 te.2 chunks).embeddings.length ∧
  (save_index te.1 te.2 chunks).embeddings.length =
      (save_index te.1 te.2 chunks).chunks_metadata.length

/-- Batching contract of C4: the batches are consecutive, non-overlapping,
    order-preserving, non-empty and of size at most batch_size, and with an
    order-preserving provider the concatenated vectors align 1:1 with the
    chunk texts. -/
abbrev C4Prop (g : List Char → List ℚ) (chunks : List ChunkRecord)
    (batch_size : Nat) : Prop :=
  (batches batch_size (chunks.map ChunkRecord.text)).flatten =
      chunks.map ChunkRecord.text ∧
  (∀ b ∈ batches batch_size (chunks.map ChunkRecord.text),
      b ≠ [] ∧ b.length ≤ batch_size) ∧
  create_embeddings_batch (fun l => l.map g) chunks batch_size =
      (chunks.map ChunkRecord.text, (chunks.map ChunkRecord.text).map g)

/-- Claim C5 as stated: a crash at any point during the write of save_index
    leaves either the prior snapshot or the complete new one. -/
abbrev C5Claim (prior : FileObs) (snap : IndexSnapshot) : Prop :=
  ∀ k : Nat,
    crashState prior (save_index_events snap) k = prior ∨
    crashState prior (save_index_events snap) k = FileObs.readable snap

/-- Concrete chunk records for witnesses. -/
def demoRecord : ChunkRecord :=
  { text := ("machine learning basics").toList, source := "demo.txt",
    chunk_id := "demo_0", length := 23, file_type := "txt", chunk_index := 0 }

def demoRecord1 : ChunkRecord :=
  { text := ("supervised models").toList, source := "demo.txt",
    chunk_id := "demo_1", length := 17, file_type := "txt", chunk_index := 1 }

def demoRecord2 : ChunkRecord :=
  { text := ("vector spaces").toList, source := "notes.txt",
    chunk_id := "notes_0", length := 13, file_type := "txt", chunk_index := 0 }

/-- Concrete snapshots for the persistence counterexample. -/
def snapOld : IndexSnapshot :=
  save_index [demoRecord.text] [[1]] [demoRecord]

def snapNew : IndexSnapshot :=
  save_index [demoRecord2.text] [[2]] [demoRecord2]

/-- Concrete provider for the C2 witness. -/
def encodeConst : List (List Char) → List (List ℚ) :=
  fun l => l.map (fun _ => [1])

/-- Concrete order-preserving provider for the C4 witness. -/
def encOfLength : List Char → List ℚ := fun l => [(l.length : ℚ)]

/-- Demo chunk-record list for the C2 and C4 witnesses. -/
def demoChunks : List ChunkRecord := [demoRecord, demoRecord1, demoRecord2]

/-- Multi-paragraph text whose stripped length is below min_length for the
    C10 witness. -/
def c10Text : List Char := ("ab\n\ncd\n\nef").toList

end ChunkAndEmbed

namespace VectorTemas

/-- Python KeyError raised by a missing dictionary key. -/
inductive PyErr where
  | keyError : PyErr
deriving DecidableEq

deriving instance DecidableEq for Except

/-- Metadata block of an enhanced chunk record.  Records are loaded from
    JSON, so every key may be absent, hence Option. -/
structure ChunkMeta where
  eje : Option String
  type : Option String
  label : Option String
  source_file : Option String
deriving DecidableEq

/-- A loaded chunk record of vector_temas_manager.py.  similarity_score is
    the key written in place by filter_by_vector_temas (line 37). -/
structure Chunk where
  text : String
  metadata : ChunkMeta
  similarity_score : Option ℚ
deriving DecidableEq

/-- Mutable state of a VectorTemasManager: the loaded chunk list.  The
    SentenceTransformer model it also holds is external and is passed to the
    operations as the parameters enc (model.encode on a single text) and
    cossim (sklearn cosine_similarity on two vectors). -/
structure VTState where
  chunks : List Chunk
deriving DecidableEq

/-- The similarity loop of filter_by_vector_temas (lines 31-38 of
    scripts/vector_temas_manager.py).  Returns the stored chunk list after
    the in-place score updates, and the retained (filtered) list in original
    order. -/
def vtScan (enc : String → List ℚ) (cossim : List ℚ → List ℚ → ℚ)
    (temas_embedding : List ℚ) (threshold : ℚ) : List Chunk → List Chunk × List Chunk
  | [] => ([], [])
  | c :: cs =>
    let similarity := cossim temas_embedding (enc c.text)
    let rest := vtScan enc cossim temas_embedding threshold cs
    if threshold < similarity then
      let c' := { c with similarity_score := some similarity }
      (c' :: rest.1, c' :: rest.2)
    else (c :: rest.1, rest.2)

/-- Stable insertion for a descending sort by key: x is placed before the
    first element whose key is at most key x, so earlier elements win ties. -/
def insertDesc {α : Type} (key : α → ℚ) (x : α) : List α → List α
  | [] => [x]
  | y :: ys => if key y ≤ key x then x :: y :: ys else y :: insertDesc key x ys

/-- Stable descending sort by key: the model of Python's stable list.sort
    with reverse=True (line 41 of scripts/vector_temas_manager.py). -/
def sortDesc {α : Type} (key : α → ℚ) : List α → List α
  | [] => []
  | x :: xs => insertDesc key x (sortDesc key xs)

/-- filter_by_vector_temas (lines 21-42 of scripts/vector_temas_manager.py).
    It reads self.chunks — not a caller-supplied list — and the score update
    mutates the stored records, so it maps the manager state to a new state
    plus the filtered, sorted result list. -/
def filter_by_vector_temas (enc : String → List ℚ) (cossim : List ℚ → List ℚ → ℚ)
    (vector_temas : List String) (threshold : ℚ) (s : VTState) :
    VTState × List Chunk :=
  if vector_temas = [] ∨ s.chunks = [] then (s, s.chunks)
  else
    let temas_text := String.intercalate " " vector_temas
    let temas_embedding := enc temas_text
    let scan := vtScan enc cossim temas_embedding threshold s.chunks
    (⟨scan.1⟩, sortDesc (fun c => c.similarity_score.getD 0) scan.2)

/-- The list comprehension of filter_by_eje: evaluating c.metadata.eje on a
    record that lacks the key raises KeyError, aborting the whole call. -/
def ejeLoop (eje_activo : String) : List Chunk → Except PyErr (List Chunk)
  | [] => Except.ok []
  | c :: cs =>
    match c.metadata.eje with
    | none => Except.error PyErr.keyError
    | some e =>
      match ejeLoop eje_activo cs with
      | Except.error err => Except.error err
      | Except.ok r => Except.ok (if e = eje_activo then c :: r else r)

/-- filter_by_eje (lines 44-49 of scripts/vector_temas_manager.py); an empty
    string models a falsy eje_activo. -/
def filter_by_eje (chunks : List Chunk) (eje_activo : String) :
    Except PyErr (List Chunk) :=
  if eje_activo = "" then Except.ok chunks else ejeLoop eje_activo chunks

/-- The list comprehension of filter_by_mode, with the same KeyError
    behaviour on a record lacking the type key. -/
def modeLoop (mode : String) : List Chunk → Except PyErr (List Chunk)
  | [] => Except.ok []
  | c :: cs =>
    match c.metadata.type with
    | none => Except.error PyErr.keyError
    | some t =>
      match modeLoop mode cs with
      | Except.error err => Except.error err
      | Except.ok r => Except.ok (if t = mode then c :: r else r)

/-- filter_by_mode (lines 51-53 of scripts/vector_temas_manager.py): applied
    unconditionally, with no pass-through case. -/
def filter_by_mode (chunks : List Chunk) (mode : String) :
    Except PyErr (List Chunk) :=
  modeLoop mode chunks

/-- get_filtered_chunks (lines 55-77 of scripts/vector_temas_manager.py).
    Stage 2 calls filter_by_vector_temas with the default threshold 0.3; as
    in the source, that call reads the stored chunk list, discarding the
    stage-1 output.  An exception propagates but any score mutation already
    performed remains, hence the state is returned alongside the result. -/
def get_filtered_chunks (enc : String → List ℚ) (cossim : List ℚ → List ℚ → ℚ)
    (s : VTState) (vector_temas : List String) (eje_activo : String)
    (mode : String) (max_chunks : Nat) : VTState × Except PyErr (List Chunk) :=
  let chunks := s.chunks
  match (if eje_activo ≠ "" then filter_by_eje chunks eje_activo else Except.ok chunks) with
  | Except.error e => (s, Except.error e)
  | Except.ok chunks1 =>
    let step2 :=
      if vector_temas ≠ [] then
        filter_by_vector_temas enc cossim vector_temas (mkRat 3 10) s
      else (s, chunks1)
    match filter_by_mode step2.2 mode with
    | Except.error e => (step2.1, Except.error e)
    | Except.ok chunks3 => (step2.1, Except.ok (chunks3.take max_chunks))

/-- A chunk record with the transient similarity_score removed; equality of
    eraseScore images states that everything except the score is untouched. -/
def eraseScore (c : Chunk) : Chunk := { c with similarity_score := none }

/-- Semantic-filter contract of C7 relative to the declarative description:
    retain exactly the chunks with similarity strictly above the threshold,
    score attached, sorted by score descending, ties in original order. -/
abbrev C7Prop (enc : String → List ℚ) (cossim : List ℚ → List ℚ → ℚ)
    (temas : List String) (threshold : ℚ) (s : VTState) : Prop :=
  let q := enc (String.intercalate " " temas)
  let keyf : Chunk → ℚ := fun c => c.similarity_score.getD 0
  let retained :=
    (s.chunks.filter (fun c => decide (threshold < cossim q (enc c.text)))).map
      (fun c => { c with similarity_score := some (cossim q (enc c.text)) })
  let res := (filter_by_vector_temas enc cossim temas threshold s).2
  res = sortDesc keyf retained ∧
  res.Pairwise (fun a b => keyf b ≤ keyf a) ∧
  (∀ v : ℚ, res.filter (fun c => decide (keyf c = v)) =
      retained.filter (fun c => decide (keyf c = v))) ∧
  (∀ c : Chunk, c ∈ res ↔ c ∈ retained)

/-- Claim C6 as stated: with an empty topic set and no axis constraint the
    pipeline returns the full chunk set truncated at max_chunks. -/
abbrev C6Claim (enc : String → List ℚ) (cossim : List ℚ → List ℚ → ℚ)
    (s : VTState) (mode : String) (max_chunks : Nat) : Prop :=
  (get_filtered_chunks enc cossim s [] "" mode max_chunks).2 =
    Except.ok (s.chunks.take max_chunks)

/-- Degenerate external providers for concrete evaluations: every text maps
    to the same vector and every similarity is 1. -/
def encUnit : String → List ℚ := fun _ => [1]

def simOne : List ℚ → List ℚ → ℚ := fun _ _ => 1

/-- Provider pair whose similarity is the chunk-text length divided by ten,
    giving distinct scores and ties for the C7 witness. -/
def encLenQ : String → List ℚ := fun s => [mkRat s.length 10]

def simHead : List ℚ → List ℚ → ℚ := fun _ v => v.headD 0

/-- Concrete chunks: two theory chunks on different ejes, one practice
    chunk, and one chunk lacking both metadata keys. -/
def chA : Chunk :=
  { text := "ta"
    metadata := { eje := some "A", type := some "theory", label := none, source_file := none }
    similarity_score := none }

def chB : Chunk :=
  { text := "tb"
    metadata := { eje := some "B", type := some "theory", label := none, source_file := none }
    similarity_score := none }

def chP : Chunk :=
  { text := "tp"
    metadata := { eje := some "A", type := some "practice", label := none, source_file := none }
    similarity_score := none }

def chNoMeta : Chunk :=
  { text := "x"
    metadata := { eje := none, type := none, label := none, source_file := none }
    similarity_score := none }

/-- Two theory chunks on ejes A and B (states for C3, C6 and C8). -/
def sAB : VTState := ⟨[chA, chB]⟩

/-- One theory and one practice chunk (counterexample state for C6). -/
def sTheoryPractice : VTState := ⟨[chA, chP]⟩

/-- Chunk whose text length determines its similarity under simHead. -/
def chOfText (t : String) : Chunk :=
  { text := t
    metadata := { eje := none, type := none, label := none, source_file := none }
    similarity_score := none }

/-- Four chunks with similarities 0.9, 0.5, 0.5, 0.1 under encLenQ/simHead:
    a strict ordering plus one tie for the C7 witness. -/
def sC7 : VTState :=
  ⟨[chOfText "uuuuu", chOfText "vvvvvvvvv", chOfText "wwwww", chOfText "z"]⟩

end VectorTemas

namespace ChunkAndEmbed

lemma length_dropWhile_le (p : Char → Bool) (l : List Char) :
    (l.dropWhile p).length ≤ l.length := by
  induction l with
  | nil => simp
  | cons a t ih =>
    by_cases h : p a
    · rw [List.dropWhile_cons, if_pos h]
      exact Nat.le_trans ih (Nat.le_succ _)
    · rw [List.dropWhile_cons, if_neg h]

lemma dropWhile_idem (p : Char → Bool) (l : List Char) :
    (l.dropWhile p).dropWhile p = l.dropWhile p := by
  induction l with
  | nil => rfl
  | cons a t ih =>
    by_cases h : p a
    · rw [List.dropWhile_cons, if_pos h]
      exact ih
    · rw [List.dropWhile_cons, if_neg h, List.dropWhile_cons, if_neg h]

lemma head_not_of_dropWhile_self {p : Char → Bool} {a : Char} {t : List Char}
    (h : (a :: t).dropWhile p = a :: t) : p a = false := by
  cases hpa : p a with
  | false => rfl
  | true =>
    rw [List.dropWhile_cons, if_pos hpa] at h
    have hle := length_dropWhile_le p t
    rw [h, List.length_cons] at hle
    omega

lemma stripped_pystrip (l : List Char) : Stripped (pystrip l) := by
  constructor
  · have hpre : pystrip l <+: l.dropWhile isPySpace := by
      unfold pystrip
      have hsuf : ((l.dropWhile isPySpace).reverse.dropWhile isPySpace) <:+
          (l.dropWhile isPySpace).reverse := List.dropWhile_suffix _
      have h2 := List.reverse_prefix.mpr hsuf
      simpa using h2
    cases hc : pystrip l with
    | nil => rfl
    | cons a t =>
      rw [hc] at hpre
      obtain ⟨r, hr⟩ := hpre
      have h1 : (a :: (t ++ r)).dropWhile isPySpace = a :: (t ++ r) := by
        rw [← List.cons_append, hr]
        exact dropWhile_idem _ _
      have ha := head_not_of_dropWhile_self h1
      rw [List.dropWhile_cons, if_neg (by simp [ha])]
  · show (pystrip l).reverse.dropWhile isPySpace = (pystrip l).reverse
    unfold pystrip
    rw [List.reverse_reverse]
    exact dropWhile_idem _ _

lemma pystrip_eq_of_stripped {l : List Char} (h : Stripped l) : pystrip l = l := by
  obtain ⟨h1, h2⟩ := h
  unfold pystrip
  rw [h1, h2, List.reverse_reverse]

lemma stripped_join {x y : List Char} (hx : Stripped x) (hy : Stripped y)
    (hxne : x ≠ []) (hyne : y ≠ []) : Stripped (x ++ ' ' :: y) := by
  obtain ⟨a, xt, rfl⟩ := List.exists_cons_of_ne_nil hxne
  constructor
  · have ha := head_not_of_dropWhile_self hx.1
    rw [List.cons_append, List.dropWhile_cons, if_neg (by simp [ha])]
  · have hyr : y.reverse ≠ [] := by simpa using hyne
    obtain ⟨b, yt, hby⟩ := List.exists_cons_of_ne_nil hyr
    have hb : isPySpace b = false := by
      apply head_not_of_dropWhile_self (t := yt)
      rw [← hby]
      exact hy.2
    rw [List.reverse_append, List.reverse_cons, hby]
    rw [List.append_assoc, List.cons_append, List.dropWhile_cons,
      if_neg (by simp [hb])]

lemma sentStep_inv (min_length max_length : Nat) (r : List (List Char))
    (st : List (List Char) × List Char) (s : List Char) (hs : s ∈ r)
    (hout : ∀ c ∈ st.1, min_length ≤ c.length ∧
      (c.length ≤ max_length + 1 ∨ c ∈ r.map pystrip))
    (hcur : st.2 = [] ∨ (Stripped st.2 ∧
      (st.2 ∈ r.map pystrip ∨ st.2.length ≤ max_length + 1))) :
    (∀ c ∈ (sentStep min_length max_length st s).1, min_length ≤ c.length ∧
      (c.length ≤ max_length + 1 ∨ c ∈ r.map pystrip)) ∧
    ((sentStep min_length max_length st s).2 = [] ∨
      (Stripped (sentStep min_length max_length st s).2 ∧
        ((sentStep min_length max_length st s).2 ∈ r.map pystrip ∨
          (sentStep min_length max_length st s).2.length ≤ max_length + 1))) := by
  obtain ⟨out, cur⟩ := st
  simp only [sentStep]
  by_cases h0 : pystrip s = []
  · rw [if_pos h0]
    exact ⟨hout, hcur⟩
  · rw [if_neg h0]
    have hsen : pystrip s ∈ r.map pystrip := List.mem_map.mpr ⟨s, hs, rfl⟩
    have hsenInv : Stripped (pystrip s) ∧
        (pystrip s ∈ r.map pystrip ∨ (pystrip s).length ≤ max_length + 1) :=
      ⟨stripped_pystrip s, Or.inl hsen⟩
    by_cases h1 : max_length < cur.length + (pystrip s).length ∧ cur ≠ []
    · rw [if_pos h1]
      refine ⟨?_, Or.inr hsenInv⟩
      by_cases h2 : min_length ≤ cur.length
      · rw [if_pos h2]
        intro c hc
        rcases List.mem_append.mp hc with hcm | hcm
        · exact hout c hcm
        · have hceq : c = pystrip cur := by simpa using hcm
          rcases hcur with hnil | ⟨hstr, hdis⟩
          · exact absurd hnil h1.2
          · rw [hceq, pystrip_eq_of_stripped hstr]
            exact ⟨h2, hdis.symm⟩
      · rw [if_neg h2]
        exact hout
    · rw [if_neg h1]
      refine ⟨hout, ?_⟩
      by_cases hc0 : cur = []
      · rw [if_pos hc0]
        exact Or.inr hsenInv
      · rw [if_neg hc0]
        rcases hcur with hnil | ⟨hstr, _⟩
        · exact absurd hnil hc0
        · have hlen : cur.length + (pystrip s).length ≤ max_length := by
            by_contra hlt
            exact h1 ⟨Nat.lt_of_not_le hlt, hc0⟩
          refine Or.inr ⟨stripped_join hstr (stripped_pystrip s) hc0 h0, Or.inr ?_⟩
          simp only [List.length_append, List.length_cons]
          omega

lemma sentFold_inv (min_length max_length : Nat) (r : List (List Char)) :
    ∀ (ss : List (List Char)) (st : List (List Char) × List Char),
      (∀ s ∈ ss, s ∈ r) →
      (∀ c ∈ st.1, min_length ≤ c.length ∧
        (c.length ≤ max_length + 1 ∨ c ∈ r.map pystrip)) →
      (st.2 = [] ∨ (Stripped st.2 ∧
        (st.2 ∈ r.map pystrip ∨ st.2.length ≤ max_length + 1))) →
      (∀ c ∈ (ss.foldl (sentStep min_length max_length) st).1,
          min_length ≤ c.length ∧
          (c.length ≤ max_length + 1 ∨ c ∈ r.map pystrip)) ∧
      ((ss.foldl (sentStep min_length max_length) st).2 = [] ∨
        (Stripped (ss.foldl (sentStep min_length max_length) st).2 ∧
          ((ss.foldl (sentStep min_length max_length) st).2 ∈ r.map pystrip ∨
            (ss.foldl (sentStep min_length max_length) st).2.length ≤ max_length + 1))) := by
  intro ss
  induction ss with
  | nil =>
    intro st _ hout hcur
    exact ⟨hout, hcur⟩
  | cons s ss ih =>
    intro st hss hout hcur
    rw [List.foldl_cons]
    have hstep := sentStep_inv min_length max_length r st s
      (hss s (List.mem_cons_self s ss)) hout hcur
    exact ih _ (fun x hx => hss x (List.mem_cons_of_mem s hx)) hstep.1 hstep.2

lemma processParagraph_mem (min_length max_length : Nat)
    (out : List (List Char)) (p c : List Char)
    (hc : c ∈ processParagraph min_length max_length out p) :
    c ∈ out ∨
    (min_length ≤ (pystrip p).length ∧ c = collapseWS (pystrip p) ∧
      c.length ≤ max_length) ∨
    (max_length < (collapseWS (pystrip p)).length ∧ min_length ≤ c.length ∧
      (c.length ≤ max_length + 1 ∨
        c ∈ (splitSents (collapseWS (pystrip p))).map pystrip)) := by
  simp only [processParagraph] at hc
  by_cases h1 : (pystrip p).length < min_length
  · rw [if_pos h1] at hc
    exact Or.inl hc
  · rw [if_neg h1] at hc
    by_cases h2 : max_length < (collapseWS (pystrip p)).length
    · rw [if_pos h2] at hc
      rcases List.mem_append.mp hc with hco | hcn
      · exact Or.inl hco
      · right; right
        refine ⟨h2, ?_⟩
        have hinv := sentFold_inv min_length max_length
          (splitSents (collapseWS (pystrip p)))
          (splitSents (collapseWS (pystrip p))) ([], [])
          (fun s hs => hs) (by intro x hx; exact absurd hx (List.not_mem_nil x))
          (Or.inl rfl)
        set fin := (splitSents (collapseWS (pystrip p))).foldl
          (sentStep min_length max_length) ([], []) with hfin
        by_cases h3 : fin.2 ≠ [] ∧ min_length ≤ fin.2.length
        · rw [if_pos h3] at hcn
          rcases List.mem_append.mp hcn with hc1 | hc2
          · exact hinv.1 c hc1
          · have hceq : c = pystrip fin.2 := by simpa using hc2
            rcases hinv.2 with hnil | ⟨hstr, hdis⟩
            · exact absurd hnil h3.1
            · rw [hceq, pystrip_eq_of_stripped hstr]
              exact ⟨h3.2, hdis.symm⟩
        · rw [if_neg h3] at hcn
          exact hinv.1 c hcn
    · rw [if_neg h2] at hc
      rcases List.mem_append.mp hc with hco | hcp
      · exact Or.inl hco
      · right; left
        have hceq : c = collapseWS (pystrip p) := by simpa using hcp
        exact ⟨Nat.le_of_not_lt h1, hceq, by rw [hceq]; exact Nat.le_of_not_lt h2⟩

lemma chunkFold_mem (min_length max_length : Nat) :
    ∀ (ps : List (List Char)) (out : List (List Char)) (c : List Char),
      c ∈ ps.foldl (processParagraph min_length max_length) out →
      c ∈ out ∨ ∃ p ∈ ps,
        ((min_length ≤ (pystrip p).length ∧ c = collapseWS (pystrip p) ∧
            c.length ≤ max_length) ∨
         (max_length < (collapseWS (pystrip p)).length ∧ min_length ≤ c.length ∧
            (c.length ≤ max_length + 1 ∨
              c ∈ (splitSents (collapseWS (pystrip p))).map pystrip))) := by
  intro ps
  induction ps with
  | nil =>
    intro out c hc
    exact Or.inl hc
  | cons p ps ih =>
    intro out c hc
    rw [List.foldl_cons] at hc
    rcases ih _ c hc with hin | ⟨p', hp', hprop⟩
    · rcases processParagraph_mem min_length max_length out p c hin with h | h | h
      · exact Or.inl h
      · exact Or.inr ⟨p, List.mem_cons_self p ps, Or.inl h⟩
      · exact Or.inr ⟨p, List.mem_cons_self p ps, Or.inr h⟩
    · exact Or.inr ⟨p', List.mem_cons_of_mem p hp', hprop⟩

/-- C1 (amended): for 0 < min_length < max_length, every chunk returned by
    chunk_text has length at least min_length — unless it is a whole
    paragraph emitted on the short path, whose length passed the min_length
    check only before whitespace collapsing — and has length at most
    max_length + 1 (the accumulator's overflow check does not count the
    joining space) — unless it is a single stripped sentence fragment of an
    over-long paragraph, the punctuation-free oversized paragraph being the
    one-fragment special case. -/
theorem C1_amended_bounds (text : List Char) (min_length max_length : Nat)
    (hmin : 0 < min_length) (hmax : min_length < max_length) :
    ∀ c ∈ chunk_text text min_length max_length,
      C1Prop text min_length max_length c := by
  intro c hc
  unfold chunk_text at hc
  by_cases hg : text = [] ∨ (pystrip text).length < min_length
  · rw [if_pos hg] at hc
    exact absurd hc (List.not_mem_nil c)
  · rw [if_neg hg] at hc
    rcases chunkFold_mem min_length max_length _ _ c hc with h0 | ⟨p, hp, hcase⟩
    · exact absurd h0 (List.not_mem_nil c)
    · constructor
      · rcases hcase with ⟨ha, hb, _⟩ | ⟨_, hm, _⟩
        · exact Or.inr ⟨p, hp, ha, hb⟩
        · exact Or.inl hm
      · rcases hcase with ⟨_, _, hle⟩ | ⟨hgt, _, hdis⟩
        · exact Or.inl (Nat.le_trans hle (Nat.le_succ _))
        · rcases hdis with h | h
          · exact Or.inl h
          · exact Or.inr ⟨p, hp, hgt, h⟩

/-- C1 counterexample: at min_length 5, max_length 10 the input cx1Text
    produces a chunk of length 4, a single-fragment chunk of length 18 from
    a paragraph that does contain sentence punctuation, and an accumulated
    chunk of length 11, so the two exceptions stated in the claim are not
    the only ones. -/
theorem C1_counterexample : ¬ C1Claim cx1Text 5 10 := by decide

theorem C1_witness :
    (0 < 5 ∧ 5 < 10 ∧ cx1Chunk ∈ chunk_text cx1Text 5 10) ∧
      C1Prop cx1Text 5 10 cx1Chunk :=
  ⟨by decide, C1_amended_bounds cx1Text 5 10 (by decide) (by decide)
    cx1Chunk (by decide)⟩

/-- C10: a text whose stripped length is below min_length — including a
    non-empty multi-paragraph text — yields the empty chunk list, by the
    whole-text guard alone. -/
theorem C10_short_input_empty (text : List Char) (min_length max_length : Nat)
    (h : (pystrip text).length < min_length) :
    chunk_text text min_length max_length = [] := by
  unfold chunk_text
  rw [if_pos (Or.inr h)]

theorem C10_witness :
    (pystrip c10Text).length < 50 ∧ chunk_text c10Text 50 100 = [] :=
  ⟨by decide, C10_short_input_empty c10Text 50 100 (by decide)⟩

end ChunkAndEmbed

namespace ChunkAndEmbed

lemma batchesGo_flatten (batch_size : Nat) :
    ∀ (xs acc : List (List Char)) (k : Nat),
      (batchesGo batch_size acc k xs).flatten = acc.reverse ++ xs := by
  intro xs
  induction xs with
  | nil =>
    intro acc k
    simp [batchesGo]
  | cons x xs ih =>
    intro acc k
    cases k with
    | zero =>
      simp only [batchesGo, List.flatten_cons, ih]
      simp
    | succ k =>
      rw [batchesGo, ih]
      simp

lemma batches_flatten (batch_size : Nat) (l : List (List Char)) :
    (batches batch_size l).flatten = l := by
  cases l with
  | nil => rfl
  | cons x xs =>
    rw [batches, batchesGo_flatten]
    simp

lemma batchesGo_mem (batch_size : Nat) (hbs : 0 < batch_size) :
    ∀ (xs acc : List (List Char)) (k : Nat) (b : List (List Char)),
      acc ≠ [] → acc.length + k ≤ batch_size →
      b ∈ batchesGo batch_size acc k xs → b ≠ [] ∧ b.length ≤ batch_size := by
  intro xs
  induction xs with
  | nil =>
    intro acc k b hne hlen hb
    simp only [batchesGo, List.mem_singleton] at hb
    subst hb
    constructor
    · simpa using hne
    · rw [List.length_reverse]; omega
  | cons x xs ih =>
    intro acc k b hne hlen hb
    cases k with
    | zero =>
      rw [batchesGo] at hb
      rcases List.mem_cons.mp hb with hb1 | hb2
      · subst hb1
        constructor
        · simpa using hne
        · rw [List.length_reverse]; omega
      · exact ih [x] (batch_size - 1) b (by simp) (by simp; omega) hb2
    | succ k =>
      rw [batchesGo] at hb
      exact ih (x :: acc) k b (by simp) (by simp; omega) hb

lemma batches_mem (batch_size : Nat) (hbs : 0 < batch_size)
    (l : List (List Char)) (b : List (List Char)) (hb : b ∈ batches batch_size l) :
    b ≠ [] ∧ b.length ≤ batch_size := by
  cases l with
  | nil => exact absurd hb (List.not_mem_nil b)
  | cons x xs =>
    rw [batches] at hb
    exact batchesGo_mem batch_size hbs xs [x] (batch_size - 1) b
      (by simp) (by simp; omega) hb

lemma flatten_map_length (encode : List (List Char) → List (List ℚ))
    (henc : ∀ l, (encode l).length = l.length) :
    ∀ L : List (List (List Char)),
      ((L.map encode).flatten).length = L.flatten.length := by
  intro L
  induction L with
  | nil => rfl
  | cons b L ih =>
    simp only [List.map_cons, List.flatten_cons, List.length_append, ih, henc]

/-- C4: for positive batch_size, create_embeddings_batch slices the chunk
    texts into consecutive, non-overlapping, order-preserving batches, each
    non-empty and of size at most batch_size, calls the provider once per
    batch, and for an order-preserving provider (encode = map g) the
    concatenated vectors are exactly the per-text embeddings in original
    chunk order. -/
theorem C4_batching_contract (g : List Char → List ℚ)
    (chunks : List ChunkRecord) (batch_size : Nat) (hbs : 0 < batch_size) :
    C4Prop g chunks batch_size := by
  refine ⟨batches_flatten batch_size _,
    fun b hb => batches_mem batch_size hbs _ b hb, ?_⟩
  by_cases hch : chunks = []
  · subst hch
    simp [create_embeddings_batch]
  · unfold create_embeddings_batch
    rw [if_neg hch]
    have h1 : ((batches batch_size (chunks.map ChunkRecord.text)).map
        (fun l => l.map g)).flatten = (chunks.map ChunkRecord.text).map g := by
      rw [← List.map_flatten, batches_flatten]
    simp only [h1]

theorem C4_witness : 0 < 2 ∧ C4Prop encOfLength demoChunks 2 :=
  ⟨by decide, C4_batching_contract encOfLength demoChunks 2 (by decide)⟩

/-- C2: for any chunk records, any positive batch size and any
    length-preserving provider, the snapshot assembled by save_index from
    the create_embeddings_batch output and the chunk records has texts,
    embeddings and chunks_metadata of equal length. -/
theorem C2_snapshot_alignment (encode : List (List Char) → List (List ℚ))
    (chunks : List ChunkRecord) (batch_size : Nat) (hbs : 0 < batch_size)
    (henc : ∀ l, (encode l).length = l.length) :
    C2Prop encode chunks batch_size := by
  unfold C2Prop save_index
  by_cases hch : chunks = []
  · subst hch
    simp [create_embeddings_batch]
  · unfold create_embeddings_batch
    rw [if_neg hch]
    simp only
    constructor
    · rw [flatten_map_length encode henc, batches_flatten]
    · rw [flatten_map_length encode henc, batches_flatten, List.length_map]

theorem C2_witness : 0 < 2 ∧ C2Prop encodeConst demoChunks 2 :=
  ⟨by decide, C2_snapshot_alignment encodeConst demoChunks 2 (by decide)
    (fun l => by simp [encodeConst])⟩

/-- C5 counterexample: save_index opens the output path itself in truncating
    write mode, so a crash after the open but before the dump leaves a file
    that is neither the prior snapshot nor the new one. -/
theorem C5_counterexample :
    ¬ C5Claim (FileObs.readable snapOld) snapNew := by
  intro h
  have h1 := h 1
  simp [crashState, save_index_events, applyEvent] at h1

/-- C5 (amended): the write is direct, not atomic: at every crash point the
    output path holds the prior content, or is truncated/partial, or holds
    the complete new snapshot — and the truncated state is really reached,
    as the counterexample shows. -/
theorem C5_amended_direct_write (prior : FileObs) (snap : IndexSnapshot)
    (k : Nat) :
    crashState prior (save_index_events snap) k = prior ∨
    crashState prior (save_index_events snap) k = FileObs.corruptOrEmpty ∨
    crashState prior (save_index_events snap) k = FileObs.readable snap := by
  match k with
  | 0 => exact Or.inl rfl
  | 1 => exact Or.inr (Or.inl rfl)
  | 2 => exact Or.inr (Or.inr rfl)
  | (n + 3) =>
    right; right
    show ((save_index_events snap).take (n + 3)).foldl applyEvent prior =
      FileObs.readable snap
    simp [save_index_events, applyEvent, List.take]

end ChunkAndEmbed

namespace VectorTemas

lemma vtScan_fst (enc : String → List ℚ) (cossim : List ℚ → List ℚ → ℚ)
    (q : List ℚ) (th : ℚ) :
    ∀ l : List Chunk, (vtScan enc cossim q th l).1 =
      l.map (fun c => if th < cossim q (enc c.text) then
        { c with similarity_score := some (cossim q (enc c.text)) } else c) := by
  intro l
  induction l with
  | nil => rfl
  | cons c cs ih =>
    simp only [vtScan, List.map_cons]
    by_cases h : th < cossim q (enc c.text)
    · rw [if_pos h, if_pos h]
      simp [ih]
    · rw [if_neg h, if_neg h]
      simp [ih]

lemma vtScan_snd (enc : String → List ℚ) (cossim : List ℚ → List ℚ → ℚ)
    (q : List ℚ) (th : ℚ) :
    ∀ l : List Chunk, (vtScan enc cossim q th l).2 =
      (l.filter (fun c => decide (th < cossim q (enc c.text)))).map
        (fun c => { c with similarity_score := some (cossim q (enc c.text)) }) := by
  intro l
  induction l with
  | nil => rfl
  | cons c cs ih =>
    simp only [vtScan, List.filter_cons]
    by_cases h : th < cossim q (enc c.text)
    · rw [if_pos h]
      simp only [decide_eq_true h, if_pos]
      simp [ih]
    · rw [if_neg h]
      simp only [decide_eq_false h]
      simp [ih]

lemma mem_insertDesc {α : Type} (key : α → ℚ) (x a : α) :
    ∀ l : List α, a ∈ insertDesc key x l ↔ a = x ∨ a ∈ l := by
  intro l
  induction l with
  | nil => simp [insertDesc]
  | cons y ys ih =>
    by_cases h : key y ≤ key x
    · simp [insertDesc, h]
    · simp only [insertDesc, if_neg h, List.mem_cons, ih]
      tauto

lemma pairwise_insertDesc {α : Type} (key : α → ℚ) (x : α) :
    ∀ l : List α, l.Pairwise (fun a b => key b ≤ key a) →
      (insertDesc key x l).Pairwise (fun a b => key b ≤ key a) := by
  intro l
  induction l with
  | nil =>
    intro _
    simp [insertDesc]
  | cons y ys ih =>
    intro hl
    rcases List.pairwise_cons.mp hl with ⟨hy, hys⟩
    by_cases h : key y ≤ key x
    · rw [insertDesc, if_pos h]
      refine List.pairwise_cons.mpr ⟨?_, hl⟩
      intro b hb
      rcases List.mem_cons.mp hb with rfl | hb'
      · exact h
      · exact le_trans (hy b hb') h
    · rw [insertDesc, if_neg h]
      refine List.pairwise_cons.mpr ⟨?_, ih hys⟩
      intro b hb
      rcases (mem_insertDesc key x b ys).mp hb with rfl | hb'
      · exact le_of_lt (lt_of_not_le h)
      · exact hy b hb'

lemma pairwise_sortDesc {α : Type} (key : α → ℚ) :
    ∀ l : List α, (sortDesc key l).Pairwise (fun a b => key b ≤ key a) := by
  intro l
  induction l with
  | nil => simp [sortDesc]
  | cons x xs ih => exact pairwise_insertDesc key x _ ih

lemma filter_insertDesc {α : Type} (key : α → ℚ) (v : ℚ) (x : α) :
    ∀ l : List α, (insertDesc key x l).filter (fun c => decide (key c = v)) =
      (if key x = v then [x] else []) ++
        l.filter (fun c => decide (key c = v)) := by
  intro l
  induction l with
  | nil =>
    simp only [insertDesc, List.filter_cons, List.filter_nil]
    by_cases hx : key x = v
    · simp [hx]
    · simp [hx]
  | cons y ys ih =>
    by_cases h : key y ≤ key x
    · rw [insertDesc, if_pos h]
      by_cases hx : key x = v
      · simp [List.filter_cons, hx]
      · simp [List.filter_cons, hx]
    · rw [insertDesc, if_neg h]
      by_cases hy : key y = v
      · have hx : ¬ key x = v := by
          intro hx
          exact h (le_of_eq (hy.trans hx.symm))
        simp [List.filter_cons, hy, ih, hx]
      · simp [List.filter_cons, hy, ih]

lemma filter_sortDesc {α : Type} (key : α → ℚ) (v : ℚ) :
    ∀ l : List α, (sortDesc key l).filter (fun c => decide (key c = v)) =
      l.filter (fun c => decide (key c = v)) := by
  intro l
  induction l with
  | nil => rfl
  | cons x xs ih =>
    rw [sortDesc, filter_insertDesc, ih, List.filter_cons]
    by_cases hx : key x = v
    · simp [hx]
    · simp [hx]

lemma mem_sortDesc {α : Type} (key : α → ℚ) (a : α) :
    ∀ l : List α, a ∈ sortDesc key l ↔ a ∈ l := by
  intro l
  induction l with
  | nil => simp [sortDesc]
  | cons x xs ih =>
    rw [sortDesc, mem_insertDesc, ih, List.mem_cons]

/-- C7: for a non-empty topic set, filter_by_vector_temas returns exactly
    the chunks whose similarity to the joined-topic query vector strictly
    exceeds the threshold, with the score attached, sorted by score
    descending; the sort is stable, so ties stay in original snapshot
    order (the per-score filtrations coincide with the unsorted retained
    list). -/
theorem C7_semantic_filter (enc : String → List ℚ)
    (cossim : List ℚ → List ℚ → ℚ) (temas : List String) (threshold : ℚ)
    (s : VTState) (htemas : temas ≠ []) :
    C7Prop enc cossim temas threshold s := by
  unfold C7Prop
  by_cases hchunks : s.chunks = []
  · rw [filter_by_vector_temas, if_pos (Or.inr hchunks)]
    rw [hchunks]
    refine ⟨rfl, by simp, fun v => by simp [sortDesc], fun c => by simp [sortDesc]⟩
  · have hres : (filter_by_vector_temas enc cossim temas threshold s).2 =
        sortDesc (fun c => c.similarity_score.getD 0)
          ((s.chunks.filter (fun c => decide (threshold <
              cossim (enc (String.intercalate " " temas)) (enc c.text)))).map
            (fun c => { c with similarity_score := some (cossim
              (enc (String.intercalate " " temas)) (enc c.text)) })) := by
      rw [filter_by_vector_temas, if_neg (by push_neg; exact ⟨htemas, hchunks⟩)]
      simp only [vtScan_snd]
    refine ⟨hres, ?_, ?_, ?_⟩
    · rw [hres]
      exact pairwise_sortDesc _ _
    · intro v
      rw [hres, filter_sortDesc]
    · intro c
      rw [hres, mem_sortDesc]

theorem C7_witness :
    (["tema", "temas"] : List String) ≠ [] ∧
      C7Prop encLenQ simHead ["tema", "temas"] (mkRat 3 10) sC7 :=
  ⟨by decide, C7_semantic_filter encLenQ simHead ["tema", "temas"]
    (mkRat 3 10) sC7 (by decide)⟩

end VectorTemas

namespace VectorTemas

lemma eraseScore_map_vtScan (enc : String → List ℚ)
    (cossim : List ℚ → List ℚ → ℚ) (q : List ℚ) (th : ℚ) (l : List Chunk) :
    ((vtScan enc cossim q th l).1).map eraseScore = l.map eraseScore := by
  rw [vtScan_fst]
  induction l with
  | nil => rfl
  | cons c cs ih =>
    simp only [List.map_cons, ih]
    by_cases h : th < cossim q (enc c.text)
    · rw [if_pos h]
      rfl
    · rw [if_neg h]

lemma eraseScore_filter_by_vector_temas (enc : String → List ℚ)
    (cossim : List ℚ → List ℚ → ℚ) (temas : List String) (th : ℚ)
    (s : VTState) :
    ((filter_by_vector_temas enc cossim temas th s).1).chunks.map eraseScore =
      s.chunks.map eraseScore := by
  unfold filter_by_vector_temas
  by_cases hg : temas = [] ∨ s.chunks = []
  · rw [if_pos hg]
  · rw [if_neg hg]
    exact eraseScore_map_vtScan enc cossim _ th s.chunks

/-- C8 (amended): filtering leaves the number, order, text and metadata of
    the stored chunk records unchanged — the eraseScore images of the stored
    list are identical before and after any filter_by_vector_temas or
    get_filtered_chunks call — but the similarity_score key itself is
    written in place on stored records, as the counterexample shows; on-disk
    data is never touched. -/
theorem C8_score_only_mutation :
    (∀ (enc : String → List ℚ) (cossim : List ℚ → List ℚ → ℚ)
        (temas : List String) (th : ℚ) (s : VTState),
      ((filter_by_vector_temas enc cossim temas th s).1).chunks.map eraseScore =
        s.chunks.map eraseScore) ∧
    (∀ (enc : String → List ℚ) (cossim : List ℚ → List ℚ → ℚ) (s : VTState)
        (temas : List String) (eje mode : String) (maxr : Nat),
      ((get_filtered_chunks enc cossim s temas eje mode maxr).1).chunks.map
          eraseScore = s.chunks.map eraseScore) := by
  refine ⟨eraseScore_filter_by_vector_temas, ?_⟩
  intro enc cossim s temas eje mode maxr
  unfold get_filtered_chunks
  simp only
  split
  · rfl
  · split
    · by_cases htem : temas ≠ []
      · rw [if_pos htem]
        exact eraseScore_filter_by_vector_temas enc cossim temas (mkRat 3 10) s
      · rw [if_neg htem]
    · by_cases htem : temas ≠ []
      · rw [if_pos htem]
        exact eraseScore_filter_by_vector_temas enc cossim temas (mkRat 3 10) s
      · rw [if_neg htem]

/-- C8 counterexample: one call to filter_by_vector_temas adds a
    similarity_score to a stored chunk record, so the loaded snapshot is
    mutated, contrary to the claim. -/
theorem C8_counterexample :
    (filter_by_vector_temas encUnit simOne ["t"] (mkRat 3 10) sAB).1 ≠ sAB ∧
      ((filter_by_vector_temas encUnit simOne ["t"]
          (mkRat 3 10) sAB).1).chunks.map
          Chunk.similarity_score = [some 1, some 1] ∧
      sAB.chunks.map Chunk.similarity_score = [none, none] := by
  decide

lemma ejeLoop_error (eje : String) :
    ∀ chunks : List Chunk, (∃ c ∈ chunks, c.metadata.eje = none) →
      ejeLoop eje chunks = Except.error PyErr.keyError := by
  intro chunks
  induction chunks with
  | nil =>
    intro h
    rcases h with ⟨c, hc, _⟩
    exact absurd hc (List.not_mem_nil c)
  | cons c cs ih =>
    intro h
    cases hme : c.metadata.eje with
    | none => rw [ejeLoop, hme]
    | some e =>
      rcases h with ⟨c', hc', hnone⟩
      rcases List.mem_cons.mp hc' with rfl | hmem
      · rw [hme] at hnone
        exact absurd hnone (by simp)
      · rw [ejeLoop, hme, ih ⟨c', hmem, hnone⟩]

lemma modeLoop_error (mode : String) :
    ∀ chunks : List Chunk, (∃ c ∈ chunks, c.metadata.type = none) →
      modeLoop mode chunks = Except.error PyErr.keyError := by
  intro chunks
  induction chunks with
  | nil =>
    intro h
    rcases h with ⟨c, hc, _⟩
    exact absurd hc (List.not_mem_nil c)
  | cons c cs ih =>
    intro h
    cases hmt : c.metadata.type with
    | none => rw [modeLoop, hmt]
    | some t =>
      rcases h with ⟨c', hc', hnone⟩
      rcases List.mem_cons.mp hc' with rfl | hmem
      · rw [hmt] at hnone
        exact absurd hnone (by simp)
      · rw [modeLoop, hmt, ih ⟨c', hmem, hnone⟩]

/-- C9 (amended): a chunk record lacking the eje key makes filter_by_eje
    raise KeyError for any requested non-empty axis tag, and a record
    lacking the type key makes filter_by_mode raise KeyError, aborting the
    whole filter call instead of excluding the chunk. -/
theorem C9_missing_key_aborts :
    (∀ (chunks : List Chunk) (eje : String), eje ≠ "" →
      (∃ c ∈ chunks, c.metadata.eje = none) →
      filter_by_eje chunks eje = Except.error PyErr.keyError) ∧
    (∀ (chunks : List Chunk) (mode : String),
      (∃ c ∈ chunks, c.metadata.type = none) →
      filter_by_mode chunks mode = Except.error PyErr.keyError) := by
  constructor
  · intro chunks eje heje h
    rw [filter_by_eje, if_neg heje]
    exact ejeLoop_error eje chunks h
  · intro chunks mode h
    exact modeLoop_error mode chunks h

theorem C9_witness :
    filter_by_eje [chNoMeta] "A" = Except.error PyErr.keyError ∧
      filter_by_mode [chNoMeta] "theory" = Except.error PyErr.keyError :=
  ⟨C9_missing_key_aborts.1 [chNoMeta] "A" (by decide)
      ⟨chNoMeta, List.mem_singleton.mpr rfl, by decide⟩,
    C9_missing_key_aborts.2 [chNoMeta] "theory"
      ⟨chNoMeta, List.mem_singleton.mpr rfl, by decide⟩⟩

/-- C9 counterexample: the claim says a chunk missing the eje key is
    excluded, i.e. the axis filter would return the empty list; instead the
    call raises KeyError. -/
theorem C9_counterexample :
    filter_by_eje [chNoMeta] "A" ≠ Except.ok [] ∧
      filter_by_mode [chNoMeta] "theory" ≠ Except.ok [] := by
  decide

end VectorTemas

namespace VectorTemas

lemma modeLoop_ok (mode : String) :
    ∀ chunks : List Chunk, (∀ c ∈ chunks, (c.metadata.type).isSome = true) →
      modeLoop mode chunks = Except.ok
        (chunks.filter (fun c => decide (c.metadata.type = some mode))) := by
  intro chunks
  induction chunks with
  | nil => intro _; rfl
  | cons c cs ih =>
    intro h
    cases hmt : c.metadata.type with
    | none =>
      have := h c (List.mem_cons_self c cs)
      rw [hmt] at this
      exact absurd this (by simp)
    | some t =>
      rw [modeLoop, hmt, ih (fun x hx => h x (List.mem_cons_of_mem c hx))]
      rw [List.filter_cons]
      by_cases ht : t = mode
      · subst ht
        simp [hmt]
      · simp [hmt, ht]

/-- C6 (amended): with an empty topic set and no axis constraint the
    pipeline still applies the mode filter — there is no way to switch it
    off — so over a snapshot whose chunks all carry a type tag it returns
    the chunks whose type equals the requested mode, in original snapshot
    order, truncated to max_chunks, leaving the state untouched; the full
    set is returned only when every chunk already has the requested type. -/
theorem C6_mode_always_applied (enc : String → List ℚ)
    (cossim : List ℚ → List ℚ → ℚ) (s : VTState) (mode : String)
    (max_chunks : Nat) (h : ∀ c ∈ s.chunks, (c.metadata.type).isSome = true) :
    (get_filtered_chunks enc cossim s [] "" mode max_chunks).2 =
      Except.ok ((s.chunks.filter
        (fun c => decide (c.metadata.type = some mode))).take max_chunks) ∧
    (get_filtered_chunks enc cossim s [] "" mode max_chunks).1 = s := by
  have hmode := modeLoop_ok mode s.chunks h
  have hred : get_filtered_chunks enc cossim s [] "" mode max_chunks =
      (match modeLoop mode s.chunks with
        | Except.error e => (s, Except.error e)
        | Except.ok chunks3 => (s, Except.ok (chunks3.take max_chunks))) := rfl
  rw [hred, hmode]
  exact ⟨rfl, rfl⟩

theorem C6_witness :
    (∀ c ∈ sAB.chunks, (c.metadata.type).isSome = true) ∧
      ((get_filtered_chunks encUnit simOne sAB [] "" "theory" 10).2 =
        Except.ok ((sAB.chunks.filter
          (fun c => decide (c.metadata.type = some "theory"))).take 10) ∧
      (get_filtered_chunks encUnit simOne sAB [] "" "theory" 10).1 = sAB) :=
  ⟨by decide, C6_mode_always_applied encUnit simOne sAB "theory" 10 (by decide)⟩

/-- C6 counterexample: a snapshot with one theory and one practice chunk,
    queried with an empty topic set and no axis tag, does not return the
    full chunk set truncated at max_chunks: the practice chunk is removed
    by the always-on mode filter. -/
theorem C6_counterexample :
    ¬ C6Claim encUnit simOne sTheoryPractice "theory" 10 := by
  decide

/-- C3 (code bug witnessed on a concrete snapshot): with an axis constraint
    A and a non-empty topic set, the axis filter alone yields only the A
    chunk, yet the pipeline's final output also contains the B chunk,
    because filter_by_vector_temas reads the stored chunk list and discards
    the axis-filtered stage-1 output; the semantic stage's output is
    therefore not a subset of the axis-filtered set and the stages are not
    chained. -/
theorem C3_stage_chain_broken :
    (get_filtered_chunks encUnit simOne sAB ["q"] "A" "theory" 10).2 =
      Except.ok [{ chA with similarity_score := some 1 },
        { chB with similarity_score := some 1 }] ∧
    filter_by_eje sAB.chunks "A" = Except.ok [chA] ∧
    chB.metadata.eje = some "B" ∧ chB.metadata.eje ≠ some "A" := by
  decide

end VectorTemas
